import Mathlib

/-!
Shallow embedding of the pragtical software-renderer core
(src/rencache.c, src/renderer.c, src/api/renderer.c, src/api/canvas.c,
src/api/utils/lxlauxlib.c) together with theorems settling the frozen
claims about its natural-language specification.

Conventions of the embedding:
  - C machine integers are modelled as Int (signed int, arithmetic does not
    overflow at the magnitudes involved) or Nat with explicit `% 2 ^ 32`
    where 32-bit unsigned wrap-around matters (the FNV-1a hash).
  - C integer division (which truncates toward zero) is Int.tdiv.
  - The two dirty-cell grids are total maps Int -> Nat (C indexes a flat
    array; the map view lets out-of-range writes be stated rather than be
    undefined behaviour).
  - Heap allocation success of SDL_realloc is an oracle, a List Bool
    consumed one entry per realloc call; an exhausted oracle counts as a
    failed allocation (theorems always supply enough entries).
-/

namespace Pragtical

/-- RenRect from renderer.h: integer origin and dimensions. -/
structure RenRect where
  x : Int
  y : Int
  width : Int
  height : Int
deriving DecidableEq, Repr

/-- RenColor from renderer.h: four 8-bit channels. Fields are Nat, kept
below 256 by the producing functions (uint8_t assignment truncates mod 256). -/
structure RenColor where
  r : Nat
  g : Nat
  b : Nat
  a : Nat
deriving DecidableEq, Repr

/-- rencache.c rencache_min. -/
def rencache_min (a b : Int) : Int := if a < b then a else b

/-- rencache.c rencache_max. -/
def rencache_max (a b : Int) : Int := if a > b then a else b

/-- rencache.h RENCACHE_CELL_SIZE. -/
def RENCACHE_CELL_SIZE : Int := 60

/-- rencache.h RENCACHE_CELLS_X = 7680 / 60. -/
def RENCACHE_CELLS_X : Int := 128

/-- rencache.h RENCACHE_CELLS_Y = 4320 / 60. -/
def RENCACHE_CELLS_Y : Int := 72

/-- rencache.c HASH_INITIAL, the 32-bit FNV-1a offset basis. -/
def HASH_INITIAL : Nat := 2166136261

/-- rencache.c hash: 32-bit FNV-1a folded over a byte sequence.
Models `*h = (*h ^ *p++) * 16777619` on unsigned (32-bit) arithmetic. -/
def hash (h : Nat) (data : List Nat) : Nat :=
  data.foldl (fun acc b => ((acc ^^^ b) * 16777619) % 2 ^ 32) h

/-- The four bytes of a 32-bit unsigned value in little-endian order, as fed
to `hash(&ren_cache->cells[idx], &h, sizeof(h))` on a little-endian host. -/
def word_bytes (h : Nat) : List Nat :=
  [h % 256, h / 2 ^ 8 % 256, h / 2 ^ 16 % 256, h / 2 ^ 24 % 256]

/-- rencache.c cell_idx: `x + y * RENCACHE_CELLS_X`. -/
def cell_idx (x y : Int) : Int := x + y * RENCACHE_CELLS_X

/-- rencache.c rects_overlap. Note every comparison is non-strict. -/
def rects_overlap (a b : RenRect) : Bool :=
  b.x + b.width ≥ a.x && b.x ≤ a.x + a.width
    && b.y + b.height ≥ a.y && b.y ≤ a.y + a.height

/-- rencache.c intersect_rects. -/
def intersect_rects (a b : RenRect) : RenRect :=
  let x1 := rencache_max a.x b.x
  let y1 := rencache_max a.y b.y
  let x2 := rencache_min (a.x + a.width) (b.x + b.width)
  let y2 := rencache_min (a.y + a.height) (b.y + b.height)
  ⟨x1, y1, rencache_max 0 (x2 - x1), rencache_max 0 (y2 - y1)⟩

/-- rencache.c merge_rects. -/
def merge_rects (a b : RenRect) : RenRect :=
  let x1 := rencache_min a.x b.x
  let y1 := rencache_min a.y b.y
  let x2 := rencache_max (a.x + a.width) (b.x + b.width)
  let y2 := rencache_max (a.y + a.height) (b.y + b.height)
  ⟨x1, y1, x2 - x1, y2 - y1⟩

/-- The list of Int values v with a ≤ v ≤ b, in increasing order; models a C
loop `for (v = a; v <= b; v++)`. Empty when b < a. -/
def intRange (a b : Int) : List Int :=
  (List.range (b + 1 - a).toNat).map (fun (i : Nat) => a + (i : Int))

/-- The cell coordinates visited by rencache.c update_overlapping_cells for
rect r: x from x1 to x2 and y from y1 to y2 inclusive, where the bounds are
the C truncated divisions of the rect edges by the cell size. There is no
clamping of x2/y2 to the grid dimensions in the source. -/
def touched_cells (r : RenRect) : List (Int × Int) :=
  let x1 := r.x.tdiv RENCACHE_CELL_SIZE
  let y1 := r.y.tdiv RENCACHE_CELL_SIZE
  let x2 := (r.x + r.width).tdiv RENCACHE_CELL_SIZE
  let y2 := (r.y + r.height).tdiv RENCACHE_CELL_SIZE
  (intRange y1 y2).flatMap (fun y => (intRange x1 x2).map (fun x => (x, y)))

/-- rencache.c update_overlapping_cells: folds the command hash h into every
grid cell the rect touches. -/
def update_overlapping_cells (cells : Int → Nat) (r : RenRect) (h : Nat) :
    Int → Nat :=
  (touched_cells r).foldl
    (fun cs p =>
      Function.update cs (cell_idx p.1 p.2)
        (hash (cs (cell_idx p.1 p.2)) (word_bytes h)))
    cells

/-! Command buffer (rencache.c push_command / expand_command_buffer). -/

/-- rencache.c CMD_BUF_INIT_SIZE = 1024 * 512 bytes. -/
def CMD_BUF_INIT_SIZE : Nat := 1024 * 512

/-- The growth step of expand_command_buffer. The C source computes
`ren_cache->command_buf_size * CMD_BUF_RESIZE_RATE` where the literal 1.2 is
the IEEE-754 double 5404319552844595 / 2 ^ 52, and truncates the double
product to size_t. For the capacities the theorems below evaluate this at
(0 and the 512 KiB initial capacity) the double product is exactly
representable, so the truncation equals the floor of the exact rational
product, which is what this function computes. -/
def cmd_buf_grow (old : Nat) : Nat := old * 5404319552844595 / 2 ^ 52

/-- State of one command buffer inside RenCache: capacity, write index and
the resize-issue flag. -/
structure CmdBuf where
  command_buf_size : Nat
  command_buf_idx : Nat
  resize_issue : Bool
deriving DecidableEq, Repr

/-- rencache.c expand_command_buffer: computes the grown size (a zero result,
which only happens from capacity zero, falls back to CMD_BUF_INIT_SIZE) and
asks the allocator; on success the capacity is updated, on failure nothing
changes. The Bool drawn from the oracle is the SDL_realloc outcome. -/
def expand_command_buffer (buf : CmdBuf) (alloc_ok : Bool) : Bool × CmdBuf :=
  let new_size := if cmd_buf_grow buf.command_buf_size = 0
    then CMD_BUF_INIT_SIZE else cmd_buf_grow buf.command_buf_size
  if alloc_ok then (true, { buf with command_buf_size := new_size })
  else (false, buf)

/-- The `while (n > ren_cache->command_buf_size)` loop of push_command:
keeps expanding until the needed index n fits or an allocation fails.
Returns (success, final buffer state, remaining oracle). Structural
recursion on the oracle; an exhausted oracle counts as allocation failure. -/
def push_grow_loop (buf : CmdBuf) (n : Nat) (oracle : List Bool) :
    Bool × CmdBuf × List Bool :=
  if n ≤ buf.command_buf_size then (true, buf, oracle)
  else
    match oracle with
    | [] => (false, buf, [])
    | ok :: rest =>
      let e := expand_command_buffer buf ok
      if e.1 then push_grow_loop e.2 n rest
      else (false, e.2, rest)

/-- COMMAND_BARE_SIZE = offsetof(Command, command): the enum tag (4 bytes)
plus the uint32_t size field (4 bytes). -/
def COMMAND_BARE_SIZE : Nat := 8

/-- alignof(max_align_t) on the usual 64-bit targets. -/
def MAX_ALIGN : Nat := 16

/-- The padded record size computed by push_command:
`size += COMMAND_BARE_SIZE; size = (size + alignment) & ~alignment` with
alignment = alignof(max_align_t) - 1. -/
def padded_size (size : Nat) : Nat :=
  (size + COMMAND_BARE_SIZE + (MAX_ALIGN - 1)) / MAX_ALIGN * MAX_ALIGN

/-- rencache.c push_command. Returns the offset of the new record (the C
function returns the pointer cmd->command) when the push succeeds, none when
it is dropped; plus the successor buffer state and the remaining allocation
oracle. When the resize-issue flag is already set, or an expansion fails
(which sets the flag), the push returns a null handle and nothing is
appended. -/
def push_command (buf : CmdBuf) (size : Nat) (oracle : List Bool) :
    Option Nat × CmdBuf × List Bool :=
  if buf.resize_issue then (none, buf, oracle)
  else
    let n := buf.command_buf_idx + padded_size size
    let g := push_grow_loop buf n oracle
    if g.1 then
      (some g.2.1.command_buf_idx, { g.2.1 with command_buf_idx := n }, g.2.2)
    else
      (none, { g.2.1 with resize_issue := true }, g.2.2)

/-- The resize-issue reset performed by rencache_begin_frame
(`ren_cache->resize_issue = false`). -/
def begin_frame_reset_resize_issue (buf : CmdBuf) : CmdBuf :=
  { buf with resize_issue := false }

/-! End-of-frame pipeline (rencache.c rencache_end_frame). -/

/-- enum CommandType from rencache.c. -/
inductive CommandType
  | SET_CLIP
  | DRAW_TEXT
  | DRAW_RECT
  | DRAW_POLY
  | DRAW_CANVAS
deriving DecidableEq, Repr

/-- One record of the command buffer as rencache_end_frame reads it: its
type tag, its leading RenRect (cmd->command[0]), the full record bytes
(type, size and payload, exactly what `hash(&h, cmd, cmd->size)` consumes)
and, for DRAW_CANVAS, the identity of the pinned RenCanvasRef. -/
structure Command where
  ctype : CommandType
  rect : RenRect
  bytes : List Nat
  canvas_ref : Nat
deriving Repr

/-- Intermediate state of the hash pass of rencache_end_frame: the running
clip rect cr, the current cell grid and the canvas ref-counts. -/
structure HashPassState where
  cr : RenRect
  cells : Int → Nat
  refs : Nat → Int

/-- One iteration of the hash pass of rencache_end_frame: SET_CLIP updates
the running clip rect, DRAW_CANVAS decrements the render_ref_count of its
pinned ref (the one place each command is scanned exactly once), then the
record rect is clipped against cr and, when not empty, the FNV-1a hash of
the whole record is folded into every overlapped cell. -/
def hash_pass_step (s : HashPassState) (cmd : Command) : HashPassState :=
  let cr := if cmd.ctype = CommandType.SET_CLIP then cmd.rect else s.cr
  let refs := if cmd.ctype = CommandType.DRAW_CANVAS then
      Function.update s.refs cmd.canvas_ref (s.refs cmd.canvas_ref - 1)
    else s.refs
  let r := intersect_rects cmd.rect cr
  if r.width = 0 ∨ r.height = 0 then ⟨cr, s.cells, refs⟩
  else ⟨cr, update_overlapping_cells s.cells r (hash HASH_INITIAL cmd.bytes), refs⟩

/-- The hash pass over the whole command list, starting from the screen rect
as the running clip rect. -/
def hash_pass (screen : RenRect) (cells : Int → Nat) (refs : Nat → Int)
    (cmds : List Command) : HashPassState :=
  cmds.foldl hash_pass_step ⟨screen, cells, refs⟩

/-- rencache.c push_rect. The merge buffer is represented in reverse order
(most recently pushed rect first), so the backward scan of the C code is a
front-to-back scan here: the first stored rect that overlaps r is replaced
by the union of the two, otherwise r is appended (cons in the reversed
representation). -/
def push_rect : List RenRect → RenRect → List RenRect
  | [], r => [r]
  | p :: rest, r =>
    if rects_overlap p r then merge_rects p r :: rest
    else p :: push_rect rest r

/-- Loop bound max_x of the diff pass: screen width / cell size + 1. -/
def diff_max_x (screen : RenRect) : Int :=
  screen.width.tdiv RENCACHE_CELL_SIZE + 1

/-- Loop bound max_y of the diff pass: screen height / cell size + 1. -/
def diff_max_y (screen : RenRect) : Int :=
  screen.height.tdiv RENCACHE_CELL_SIZE + 1

/-- The (x, y) cell coordinates scanned by the diff loop of
rencache_end_frame, y outer from 0 to max_y - 1, x inner from 0 to
max_x - 1, in visit order. -/
def scanned_cells (screen : RenRect) : List (Int × Int) :=
  (intRange 0 (diff_max_y screen - 1)).flatMap
    (fun y => (intRange 0 (diff_max_x screen - 1)).map (fun x => (x, y)))

/-- One iteration of the diff loop: compare the current and previous hash of
the visited cell, push a 1 x 1 cell rect on mismatch, then reset the
previous-grid entry to HASH_INITIAL. State is (reversed rect buffer,
previous grid). -/
def diff_step (cells : Int → Nat) (st : List RenRect × (Int → Nat))
    (p : Int × Int) : List RenRect × (Int → Nat) :=
  let idx := cell_idx p.1 p.2
  let buf := if cells idx ≠ st.2 idx then push_rect st.1 ⟨p.1, p.2, 1, 1⟩ else st.1
  (buf, Function.update st.2 idx HASH_INITIAL)

/-- The diff-and-merge pass of rencache_end_frame: scans every cell within
the screen bounds, collecting merged dirty rects (reversed) and resetting
the previous grid. -/
def diff_pass (screen : RenRect) (cells cells_prev : Int → Nat) :
    List RenRect × (Int → Nat) :=
  (scanned_cells screen).foldl (diff_step cells) ([], cells_prev)

/-- The cell-units-to-pixels expansion of rencache_end_frame: scale a merged
cell rect by the cell size and clip it to the screen. -/
def expand_rect (screen : RenRect) (r : RenRect) : RenRect :=
  intersect_rects
    ⟨r.x * RENCACHE_CELL_SIZE, r.y * RENCACHE_CELL_SIZE,
     r.width * RENCACHE_CELL_SIZE, r.height * RENCACHE_CELL_SIZE⟩ screen

/-- The two dirty-cell grids of a RenCache. -/
structure RenCacheCells where
  cells : Int → Nat
  cells_prev : Int → Nat

/-- Result of rencache_end_frame: successor grids (after the swap), the
presented rect list in pixel units (handed to rencache_update_rects when
non-empty), and the successor canvas ref-counts. -/
structure EndFrameResult where
  grids : RenCacheCells
  rects : List RenRect
  refs : Nat → Int

/-- rencache.c rencache_end_frame, excluding the redraw of surface pixels:
hash pass, diff and merge, expansion to pixel rects, grid swap. The write
index reset of the command buffer is CmdBuf.command_buf_idx := 0 and is
stated separately. -/
def rencache_end_frame (screen : RenRect) (grids : RenCacheCells)
    (refs : Nat → Int) (cmds : List Command) : EndFrameResult :=
  let hp := hash_pass screen grids.cells refs cmds
  let dp := diff_pass screen hp.cells grids.cells_prev
  ⟨⟨dp.2, hp.cells⟩, (dp.1.reverse).map (expand_rect screen), hp.refs⟩

/-! Recording of drawing commands (rencache.c rencache_set_clip_rect,
rencache_draw_rect, rencache_draw_canvas). -/

/-- sizeof(DrawRectCommand): a RenRect (four ints) plus a RenColor. -/
def sizeof_DrawRectCommand : Nat := 20

/-- sizeof(DrawCanvasCommand): a RenRect, a size_t version and a pointer. -/
def sizeof_DrawCanvasCommand : Nat := 32

/-- sizeof(SetClipCommand): a RenRect. -/
def sizeof_SetClipCommand : Nat := 16

/-- Recording-side state of a RenCache: the last clip rect, the screen rect,
the command buffer bookkeeping, the list of records appended so far this
frame, and the canvas ref-counts. -/
structure RenCacheRec where
  screen_rect : RenRect
  last_clip_rect : RenRect
  buf : CmdBuf
  cmds : List Command
  refs : Nat → Int

/-- rencache.c rencache_set_clip_rect: pushes a SET_CLIP record carrying the
given rect intersected with the screen rect, and caches it as the last clip
rect; nothing happens when the push fails. The bytes argument stands for the
serialized record. -/
def rencache_set_clip_rect (st : RenCacheRec) (rect : RenRect)
    (bytes : List Nat) (oracle : List Bool) : RenCacheRec × List Bool :=
  let pc := push_command st.buf sizeof_SetClipCommand oracle
  let buf' := pc.2.1
  let rest := pc.2.2
  match pc.1 with
  | none => ({ st with buf := buf' }, rest)
  | some _ =>
    let clipped := intersect_rects rect st.screen_rect
    ({ st with
        buf := buf'
        cmds := st.cmds ++ [⟨CommandType.SET_CLIP, clipped, bytes, 0⟩]
        last_clip_rect := clipped }, rest)

/-- rencache.c rencache_draw_rect: returns without recording when a
dimension is zero or the rect does not overlap the last clip rect (the
overlap test is non-strict, so a rect that merely touches the clip boundary
is still recorded); otherwise pushes a DRAW_RECT record. -/
def rencache_draw_rect (st : RenCacheRec) (rect : RenRect) (bytes : List Nat)
    (oracle : List Bool) : RenCacheRec × List Bool :=
  if rect.width = 0 ∨ rect.height = 0 ∨ ¬rects_overlap st.last_clip_rect rect
  then (st, oracle)
  else
    let pc := push_command st.buf sizeof_DrawRectCommand oracle
    let buf' := pc.2.1
    let rest := pc.2.2
    match pc.1 with
    | none => ({ st with buf := buf' }, rest)
    | some _ =>
      ({ st with
          buf := buf'
          cmds := st.cmds ++ [⟨CommandType.DRAW_RECT, rect, bytes, 0⟩] }, rest)

/-- rencache.c rencache_draw_canvas: same geometric guard as draw_rect; on a
successful push the DRAW_CANVAS record captures the canvas ref and its
render_ref_count is incremented by exactly one. -/
def rencache_draw_canvas (st : RenCacheRec) (rect : RenRect) (ref : Nat)
    (bytes : List Nat) (oracle : List Bool) : RenCacheRec × List Bool :=
  if rect.width = 0 ∨ rect.height = 0 ∨ ¬rects_overlap st.last_clip_rect rect
  then (st, oracle)
  else
    let pc := push_command st.buf sizeof_DrawCanvasCommand oracle
    let buf' := pc.2.1
    let rest := pc.2.2
    match pc.1 with
    | none => ({ st with buf := buf' }, rest)
    | some _ =>
      ({ st with
          buf := buf'
          cmds := st.cmds ++ [⟨CommandType.DRAW_CANVAS, rect, bytes, ref⟩]
          refs := Function.update st.refs ref (st.refs ref + 1) }, rest)

/-- One recording call, for quantifying over arbitrary recorded frames:
either a set-clip, a draw-rect or a draw-canvas invocation. -/
inductive RecCall
  | setClip (rect : RenRect) (bytes : List Nat)
  | drawRect (rect : RenRect) (bytes : List Nat)
  | drawCanvas (rect : RenRect) (ref : Nat) (bytes : List Nat)

/-- Dispatch one recording call. -/
def rec_call (st : RenCacheRec) (oracle : List Bool) :
    RecCall → RenCacheRec × List Bool
  | RecCall.setClip rect bytes => rencache_set_clip_rect st rect bytes oracle
  | RecCall.drawRect rect bytes => rencache_draw_rect st rect bytes oracle
  | RecCall.drawCanvas rect ref bytes => rencache_draw_canvas st rect ref bytes oracle

/-- Record a whole frame of calls in order. -/
def record_calls (st : RenCacheRec) (oracle : List Bool) :
    List RecCall → RenCacheRec × List Bool
  | [] => (st, oracle)
  | c :: cs =>
    let p := rec_call st oracle c
    record_calls p.1 p.2 cs

/-! Canvas handle / ref system with copy-on-write (api/renderer.c
f_draw_canvas records the current RenCanvasRef of a canvas handle and
rencache.c pins and later unpins it; the mutating canvas operations of this
architecture are not under src/, so the mutation path is modelled from the
spec). -/

/-- State of one canvas handle and the RenCanvasRef store. Refs are named by
Nat identities; next_ref is the source of fresh identities, so every live
ref identity is below it. -/
structure CanvasSys where
  handle_ref : Nat
  ref_surface : Nat → List Nat
  render_ref_count : Nat → Int
  next_ref : Nat

/-- Recording a draw-canvas command for the canvas (api/renderer.c
f_draw_canvas feeding rencache.c rencache_draw_canvas, success path): the
command captures the current ref of the handle, whose render_ref_count is
incremented by exactly one. Returns the captured ref. -/
def canvas_record_draw (st : CanvasSys) : Nat × CanvasSys :=
  (st.handle_ref,
   { st with
      render_ref_count := Function.update st.render_ref_count st.handle_ref
        (st.render_ref_count st.handle_ref + 1) })

/-- Modelled from the spec: the COW rule for mutating canvas operations.
The RenCanvas/RenCanvasRef mutation path is code of this repository that is
not under src/ (src/api/canvas.c holds an older canvas variant without
refs, while src/api/renderer.c and src/rencache.c reference the ref-based
one). Spec section 3: any mutating call on a canvas whose current ref has
render_ref_count > 0 must atomically detach a freshly duplicated ref
(copying the backing surface), associate it with the handle, and apply the
mutation to the new ref; otherwise the mutation applies in place. The
mutation itself is an arbitrary surface transformer m. -/
def canvas_mutate (st : CanvasSys) (m : List Nat → List Nat) : CanvasSys :=
  if 0 < st.render_ref_count st.handle_ref then
    { handle_ref := st.next_ref
      ref_surface := Function.update st.ref_surface st.next_ref
        (m (st.ref_surface st.handle_ref))
      render_ref_count := st.render_ref_count
      next_ref := st.next_ref + 1 }
  else
    { st with
        ref_surface := Function.update st.ref_surface st.handle_ref
          (m (st.ref_surface st.handle_ref)) }

/-- Consuming a recorded draw-canvas command in the hash pass of
rencache_end_frame: the blit reads the surface of the pinned ref
(`ren_draw_canvas(&rs, cvcmd->canvas_ref->surface, ...)` reads the same
ref the redraw pass blits) and render_ref_count is decremented by one.
Returns the blitted bytes. -/
def canvas_consume_draw (st : CanvasSys) (ref : Nat) : List Nat × CanvasSys :=
  (st.ref_surface ref,
   { st with
      render_ref_count := Function.update st.render_ref_count ref
        (st.render_ref_count ref - 1) })

/-! Pixel-level canvas model for src/api/canvas.c get_pixels / set_pixels /
clear. Canvases here are the RGBA32 variant (f_new with the default
transparency = true). -/

/-- One RGBA pixel; channels are byte values. -/
structure Pixel where
  r : Nat
  g : Nat
  b : Nat
  a : Nat
deriving DecidableEq, Repr

/-- A canvas surface: dimensions plus a pixel map. -/
structure Canvas where
  w : Nat
  h : Nat
  pix : Nat → Nat → Pixel

/-- SDL ALPHA_BLEND_RGBA, the per-pixel math SDL_BlitSurface applies under
SDL_BLENDMODE_BLEND (the default blend mode of surfaces created with an
alpha pixel format, such as every RGBA32 canvas surface):
dC = (sC - dC) * sA / 255 + dC per colour channel with C truncating signed
division, and dA = sA + dA - dA * sA / 255. -/
def alpha_blend_rgba (s d : Pixel) : Pixel :=
  ⟨(((((s.r : Int) - d.r) * s.a).tdiv 255) + d.r).toNat,
   (((((s.g : Int) - d.g) * s.a).tdiv 255) + d.g).toNat,
   (((((s.b : Int) - d.b) * s.a).tdiv 255) + d.b).toNat,
   ((s.a : Int) + d.a - ((d.a : Int) * s.a).tdiv 255).toNat⟩

/-- Channel t of a pixel in RGBA32 byte order (R, G, B, A). -/
def pixel_channel (p : Pixel) : Nat → Nat
  | 0 => p.r
  | 1 => p.g
  | 2 => p.b
  | _ => p.a

/-- src/api/canvas.c f_get_pixels: blits the sub-rect (x, y, w, h) of the
canvas onto a freshly created (zero-filled, fully transparent) RGBA32
surface of size w times h — SDL_BlitSurface blends, since the canvas
surface carries the default SDL_BLENDMODE_BLEND — and returns the packed
RGBA32 bytes of that surface, row-major, pitch w * 4. Byte k of the result
is channel k % 4 of destination pixel number k / 4. -/
def f_get_pixels (c : Canvas) (x y w h : Nat) : List Nat :=
  (List.range (w * h * 4)).map (fun k =>
    let pi := k / 4
    let i := pi % w
    let j := pi / w
    pixel_channel (alpha_blend_rgba (c.pix (x + i) (y + j)) ⟨0, 0, 0, 0⟩) (k % 4))

/-- Byte k of a packed byte string (reads past the end give 0). -/
def byte_at (bytes : List Nat) (k : Nat) : Nat := bytes.getD k 0

/-- Modelled from the spec: rencache_draw_pixels, which f_set_pixels calls,
is declared in src/rencache.h but its definition is not under src/. Spec
sections 4.3 and 6: set_pixels overwrites the block (x, y, w, h) with the
given packed RGBA32 bytes — row-major, tightly packed, pitch w * 4 — with
no blending; pixels outside the block are untouched. -/
def rencache_draw_pixels (c : Canvas) (bytes : List Nat) (x y w h : Nat) :
    Canvas :=
  { c with pix := fun px py =>
      if x ≤ px ∧ px < x + w ∧ y ≤ py ∧ py < y + h then
        let k := ((py - y) * w + (px - x)) * 4
        ⟨byte_at bytes k, byte_at bytes (k + 1),
         byte_at bytes (k + 2), byte_at bytes (k + 3)⟩
      else c.pix px py }

/-! Colour parsing (src/api/utils/lxlauxlib.c) and src/api/canvas.c
f_clear. Lua values relevant to colour tables are modelled as numbers or
a non-number placeholder; an absent or nil argument is none. -/

/-- A Lua value sitting in a colour table slot. -/
inductive LuaVal
  | num (n : Int)
  | nonNum
deriving DecidableEq, Repr

/-- lua_rawgeti on a sequence table: element i (1-based), nil past the
end. -/
def rawgeti (t : List LuaVal) (i : Nat) : Option LuaVal := t.get? (i - 1)

/-- lxlauxlib.c get_color_value: the table entry must be a number, anything
else (including nil) raises an argument error. -/
def get_color_value (t : List LuaVal) (i : Nat) : Except String Int :=
  match rawgeti t i with
  | some (LuaVal.num n) => Except.ok n
  | _ => Except.error "number expected"

/-- lxlauxlib.c get_color_value_opt: nil or absent falls back to the
default, a non-number raises. -/
def get_color_value_opt (t : List LuaVal) (i : Nat) (dflt : Int) :
    Except String Int :=
  match rawgeti t i with
  | none => Except.ok dflt
  | some (LuaVal.num n) => Except.ok n
  | some LuaVal.nonNum => Except.error "number expected"

/-- C conversion of an int to uint8_t: reduction mod 256. -/
def to_u8 (n : Int) : Nat := (n % 256).toNat

/-- lxlauxlib.c luaXL_checkcolor: an absent or nil argument yields
(def, def, def, 255); otherwise the argument must be a table whose entries
1..3 are the colour channels and whose optional entry 4 is the alpha,
defaulting to 255. -/
def luaXL_checkcolor (arg : Option (List LuaVal)) (dflt : Nat) :
    Except String RenColor :=
  match arg with
  | none => Except.ok ⟨dflt % 256, dflt % 256, dflt % 256, 255⟩
  | some t =>
    match get_color_value t 1, get_color_value t 2, get_color_value t 3,
        get_color_value_opt t 4 255 with
    | Except.ok r, Except.ok g, Except.ok b, Except.ok a =>
      Except.ok ⟨to_u8 r, to_u8 g, to_u8 b, to_u8 a⟩
    | Except.error e, _, _, _ => Except.error e
    | _, Except.error e, _, _ => Except.error e
    | _, _, Except.error e, _ => Except.error e
    | _, _, _, Except.error e => Except.error e

/-- The colour f_clear resolves (src/api/canvas.c lines 205-209): when the
colour argument (stack index 2) is absent or nil, transparent black;
otherwise the value of luaXL_checkcolor applied to STACK INDEX 6 with
default intensity 255 — the index the source actually passes. The stack
maps each index to the colour-shaped argument sitting there, none when the
slot is empty or nil. -/
def f_clear_color (stack : Nat → Option (List LuaVal)) :
    Except String RenColor :=
  match stack 2 with
  | none => Except.ok ⟨0, 0, 0, 0⟩
  | some _ => luaXL_checkcolor (stack 6) 255

/-- Raw fill of every canvas pixel with a colour, the effect of the
full-surface rencache_draw_rect(canvas, rect, color, true) that f_clear
issues (replace = true writes raw bytes). -/
def canvas_fill (c : Canvas) (col : RenColor) : Canvas :=
  { c with pix := fun px py =>
      if px < c.w ∧ py < c.h then ⟨col.r, col.g, col.b, col.a⟩
      else c.pix px py }

/-- src/api/canvas.c f_clear: resolve the colour, then fill the whole
canvas with it. -/
def f_clear (c : Canvas) (stack : Nat → Option (List LuaVal)) :
    Except String Canvas :=
  (f_clear_color stack).map (canvas_fill c)

/-! Fonts (src/renderer.c ren_font_load and
ren_font_group_set_tab_size). Advances are modelled as exact rationals. -/

/-- renderer.h FONT_FALLBACK_MAX. -/
def FONT_FALLBACK_MAX : Nat := 10

/-- The advance fields of a RenFont. -/
structure RenFont where
  space_advance : ℚ
  tab_advance : ℚ
deriving DecidableEq, Repr

/-- The advance initialization of src/renderer.c ren_font_load: the space
advance comes from the rasterizer (face->glyph->advance.x / 64.0, a
parameter here) and the tab advance is space_advance * 2. -/
def ren_font_load_advances (space_advance : ℚ) : RenFont :=
  ⟨space_advance, space_advance * 2⟩

/-- src/renderer.c ren_font_group_set_tab_size: for every member of the
group (the fonts array holds the non-null members, at most
FONT_FALLBACK_MAX of them), tab_advance becomes space_advance * n. -/
def ren_font_group_set_tab_size (fonts : List RenFont) (n : Int) :
    List RenFont :=
  fonts.map (fun f => { f with tab_advance := f.space_advance * (n : ℚ) })

/-! Helper lemmas. -/

theorem rencache_min_eq (a b : Int) : rencache_min a b = min a b := by
  unfold rencache_min
  split <;> omega

theorem rencache_max_eq (a b : Int) : rencache_max a b = max a b := by
  unfold rencache_max
  split <;> omega

theorem rects_overlap_iff (a b : RenRect) :
    rects_overlap a b = true ↔
      a.x ≤ b.x + b.width ∧ b.x ≤ a.x + a.width ∧
        a.y ≤ b.y + b.height ∧ b.y ≤ a.y + a.height := by
  simp only [rects_overlap, Bool.and_eq_true, decide_eq_true_eq, ge_iff_le]
  omega

theorem to_u8_coe (n : Nat) (h : n ≤ 255) : to_u8 n = n := by
  simp only [to_u8]
  omega

theorem to_u8_255 : to_u8 255 = 255 := by decide

theorem padded_size_pos (sz : Nat) : 0 < padded_size sz := by
  simp only [padded_size, COMMAND_BARE_SIZE, MAX_ALIGN]
  omega

theorem push_grow_loop_fits (buf : CmdBuf) (n : Nat) (oracle : List Bool)
    (h : n ≤ buf.command_buf_size) : push_grow_loop buf n oracle = (true, buf, oracle) := by
  unfold push_grow_loop
  simp [h]

theorem push_grow_loop_expand_ok (buf : CmdBuf) (n : Nat) (rest : List Bool)
    (h : ¬ n ≤ buf.command_buf_size) :
    push_grow_loop buf n (true :: rest)
      = push_grow_loop { buf with command_buf_size :=
          (if cmd_buf_grow buf.command_buf_size = 0 then CMD_BUF_INIT_SIZE
           else cmd_buf_grow buf.command_buf_size) } n rest := by
  conv_lhs => unfold push_grow_loop
  simp [h, expand_command_buffer]

theorem push_grow_loop_expand_fail (buf : CmdBuf) (n : Nat) (rest : List Bool)
    (h : ¬ n ≤ buf.command_buf_size) :
    push_grow_loop buf n (false :: rest) = (false, buf, rest) := by
  conv_lhs => unfold push_grow_loop
  simp [h, expand_command_buffer]

/-! Claim theorems. -/

/-- C5. The claim states that the dirty-grid cell indices touched by the
hash pass always stay within the fixed 128 x 72 grid, out-of-grid
coordinates being clamped into the last row and column. The code has no
clamp: at the very resolution rencache.h documents as the maximum the cache
can track (7680 x 4320), the command rect (7620, 4260, 60, 60) — which
survives clipping against the screen unchanged — makes
update_overlapping_cells visit cell (128, 72), whose index 9344 lies past
the 9216-entry cell array, and fold the command hash into it. -/
theorem claim_C5_unclamped_cells :
    intersect_rects ⟨7620, 4260, 60, 60⟩ ⟨0, 0, 7680, 4320⟩ = ⟨7620, 4260, 60, 60⟩
    ∧ (128, 72) ∈ touched_cells ⟨7620, 4260, 60, 60⟩
    ∧ cell_idx 128 72 = 9344
    ∧ ¬((9344 : Int) < RENCACHE_CELLS_X * RENCACHE_CELLS_Y)
    ∧ update_overlapping_cells (fun _ => 0) ⟨7620, 4260, 60, 60⟩ 1 9344 ≠ 0 := by
  refine ⟨by decide, by decide, by decide, by decide, by decide⟩

/-- C6. The claim states clear(C, color) fills C with the given colour and
clear(C) with an absent or nil colour fills it with transparent black. The
nil branch is as claimed, but when a colour IS passed the source reads it
from stack index 6 instead of index 2 (src/api/canvas.c line 209), so a
call such as C:clear({255, 0, 0}) finds nothing there and fills with the
checkcolor default, opaque white, not with red. -/
theorem claim_C6_clear_reads_wrong_slot :
    f_clear_color
        (fun i => if i = 2 then some [LuaVal.num 255, LuaVal.num 0, LuaVal.num 0] else none)
      = Except.ok ⟨255, 255, 255, 255⟩
    ∧ (⟨255, 255, 255, 255⟩ : RenColor) ≠ ⟨255, 0, 0, 255⟩
    ∧ (f_clear ⟨2, 1, fun _ _ => ⟨9, 9, 9, 9⟩⟩ (fun _ => none)).toOption.map
        (fun c2 => (c2.pix 0 0, c2.pix 1 0))
      = some (⟨0, 0, 0, 0⟩, ⟨0, 0, 0, 0⟩) := by
  refine ⟨rfl, by decide, rfl⟩

/-- C4 counterexample. The claim states that on overflow the command buffer
is reallocated to the ceiling of old times 1.2. From the full initial
512 KiB buffer (524288 bytes), the first overflowing push reallocates to
524288 * 1.2 truncated, i.e. 629145, while the ceiling — (524288 * 6 + 4) / 5
in exact arithmetic — is 629146. -/
theorem claim_C4_growth_not_ceiling :
    (push_command ⟨524288, 524288, false⟩ 1 [true]).2.1.command_buf_size = 629145
    ∧ (push_command ⟨524288, 524288, false⟩ 1 [true]).2.1.command_buf_size
        ≠ (524288 * 6 + 4) / 5 := by
  refine ⟨by decide, by decide⟩

/-- C4 as amended: the first allocation has capacity 512 KiB; on overflow
the capacity becomes the C truncation of old times 1.2 (the floor, one
less than the ceiling whenever the exact product is fractional); if
reallocation fails the push returns a null handle, the buffer enters the
resize-issue state in which every subsequent push returns a null handle
without aborting, and the flag is cleared by the next begin_frame. -/
theorem claim_C4_growth_and_resize_issue :
    (∀ (sz : Nat) (rest : List Bool), padded_size sz ≤ CMD_BUF_INIT_SIZE →
       push_command ⟨0, 0, false⟩ sz (true :: rest)
         = (some 0, ⟨CMD_BUF_INIT_SIZE, padded_size sz, false⟩, rest))
    ∧ (∀ (buf : CmdBuf) (sz : Nat) (rest : List Bool),
        buf.resize_issue = false →
        buf.command_buf_size < buf.command_buf_idx + padded_size sz →
        buf.command_buf_idx + padded_size sz ≤ cmd_buf_grow buf.command_buf_size →
        cmd_buf_grow buf.command_buf_size ≠ 0 →
        push_command buf sz (true :: rest)
          = (some buf.command_buf_idx,
             ⟨cmd_buf_grow buf.command_buf_size,
              buf.command_buf_idx + padded_size sz, false⟩, rest))
    ∧ (∀ (buf : CmdBuf) (sz : Nat) (rest : List Bool),
        buf.resize_issue = false →
        buf.command_buf_size < buf.command_buf_idx + padded_size sz →
        push_command buf sz (false :: rest)
          = (none, ⟨buf.command_buf_size, buf.command_buf_idx, true⟩, rest))
    ∧ (∀ (buf : CmdBuf) (sz : Nat) (oracle : List Bool),
        buf.resize_issue = true →
        push_command buf sz oracle = (none, buf, oracle))
    ∧ (∀ buf : CmdBuf, (begin_frame_reset_resize_issue buf).resize_issue = false) := by
  refine ⟨?_, ?_, ?_, ?_, ?_⟩
  · intro sz rest hsz
    have h0 : ¬((⟨0, 0, false⟩ : CmdBuf).command_buf_idx + padded_size sz
        ≤ (⟨0, 0, false⟩ : CmdBuf).command_buf_size) := by
      have := padded_size_pos sz
      simp only
      omega
    simp only [push_command]
    rw [if_neg (by simp), push_grow_loop_expand_ok _ _ _ h0]
    rw [if_pos (show cmd_buf_grow 0 = 0 from rfl)]
    rw [push_grow_loop_fits _ _ _ (by simpa using hsz)]
    simp
  · intro buf sz rest hri hlt hle hne
    obtain ⟨s, i, ri⟩ := buf
    simp only at hri hlt hle hne
    subst hri
    have h0 : ¬((⟨s, i, false⟩ : CmdBuf).command_buf_idx + padded_size sz
        ≤ (⟨s, i, false⟩ : CmdBuf).command_buf_size) := by
      simp only
      omega
    simp only [push_command]
    rw [if_neg (by simp), push_grow_loop_expand_ok _ _ _ h0]
    rw [if_neg hne]
    rw [push_grow_loop_fits _ _ _ (by simpa using hle)]
    simp
  · intro buf sz rest hri hlt
    obtain ⟨s, i, ri⟩ := buf
    simp only at hri hlt
    subst hri
    have h0 : ¬((⟨s, i, false⟩ : CmdBuf).command_buf_idx + padded_size sz
        ≤ (⟨s, i, false⟩ : CmdBuf).command_buf_size) := by
      simp only
      omega
    simp only [push_command]
    rw [if_neg (by simp), push_grow_loop_expand_fail _ _ _ h0]
    simp
  · intro buf sz oracle hri
    simp [push_command, hri]
  · intro buf
    simp [begin_frame_reset_resize_issue]

/-- C7 counterexample. The claim states the get_pixels / set_pixels round
trip leaves the sub-rect bytes unchanged. On a 1 x 1 canvas holding the
translucent pixel (255, 0, 0, 128), get_pixels blits through the default
SDL_BLENDMODE_BLEND of the RGBA32 canvas surface onto the fresh transparent
destination, returning the alpha-premultiplied bytes (128, 0, 0, 128);
writing them back changes the pixel. -/
theorem claim_C7_roundtrip_counterexample :
    f_get_pixels ⟨1, 1, fun _ _ => ⟨255, 0, 0, 128⟩⟩ 0 0 1 1 = [128, 0, 0, 128]
    ∧ (rencache_draw_pixels ⟨1, 1, fun _ _ => ⟨255, 0, 0, 128⟩⟩
        (f_get_pixels ⟨1, 1, fun _ _ => ⟨255, 0, 0, 128⟩⟩ 0 0 1 1) 0 0 1 1).pix 0 0
      = ⟨128, 0, 0, 128⟩
    ∧ (⟨128, 0, 0, 128⟩ : Pixel) ≠ ⟨255, 0, 0, 128⟩ := by
  refine ⟨by decide, by decide, by decide⟩

/-- C8. For a colour argument position: a 3-element tuple of integers
0..255 yields that rgb with alpha 255, a 4-element tuple yields the given
rgba, and an absent or nil value yields (def, def, def, 255) — opaque white
when the callee passes the usual default intensity 255 — without raising. -/
theorem claim_C8_checkcolor :
    (∀ r g b : Nat, r ≤ 255 → g ≤ 255 → b ≤ 255 → ∀ d : Nat,
       luaXL_checkcolor (some [LuaVal.num r, LuaVal.num g, LuaVal.num b]) d
         = Except.ok ⟨r, g, b, 255⟩)
    ∧ (∀ r g b a : Nat, r ≤ 255 → g ≤ 255 → b ≤ 255 → a ≤ 255 → ∀ d : Nat,
       luaXL_checkcolor (some [LuaVal.num r, LuaVal.num g, LuaVal.num b, LuaVal.num a]) d
         = Except.ok ⟨r, g, b, a⟩)
    ∧ (∀ d : Nat, d ≤ 255 → luaXL_checkcolor none d = Except.ok ⟨d, d, d, 255⟩) := by
  refine ⟨?_, ?_, ?_⟩
  · intro r g b hr hg hb d
    simp only [luaXL_checkcolor, get_color_value, get_color_value_opt, rawgeti, List.get?]
    rw [to_u8_coe r hr, to_u8_coe g hg, to_u8_coe b hb, to_u8_255]
  · intro r g b a hr hg hb ha d
    simp only [luaXL_checkcolor, get_color_value, get_color_value_opt, rawgeti, List.get?]
    rw [to_u8_coe r hr, to_u8_coe g hg, to_u8_coe b hb, to_u8_coe a ha]
  · intro d hd
    have hd' : d % 256 = d := Nat.mod_eq_of_lt (by omega)
    simp [luaXL_checkcolor, hd']

/-- C9. A freshly loaded font has tab_advance = space_advance * 2 (the
default tab size is 2), and set_tab_size(group, n) sets
tab_advance = space_advance * n for each member of the group. -/
theorem claim_C9_tab_advance :
    (∀ s : ℚ, (ren_font_load_advances s).tab_advance
        = (ren_font_load_advances s).space_advance * 2)
    ∧ (∀ (fonts : List RenFont) (n : Int), fonts.length ≤ FONT_FALLBACK_MAX →
        ∀ g ∈ ren_font_group_set_tab_size fonts n,
          g.tab_advance = g.space_advance * (n : ℚ)) := by
  constructor
  · intro s
    rfl
  · intro fonts n hlen g hg
    simp only [ren_font_group_set_tab_size, List.mem_map] at hg
    obtain ⟨f, hf, rfl⟩ := hg
    rfl

/-- C9 witness: a one-font group with space advance 3, tab size 4. -/
theorem claim_C9_tab_advance_witness :
    (ren_font_load_advances 3).tab_advance = (ren_font_load_advances 3).space_advance * 2
    ∧ ∀ g ∈ ren_font_group_set_tab_size [⟨3, 6⟩] 4,
        g.tab_advance = g.space_advance * ((4 : Int) : ℚ) :=
  ⟨claim_C9_tab_advance.1 3,
   claim_C9_tab_advance.2 [⟨3, 6⟩] 4 (by decide)⟩

/-- C8 witness: concrete colour tuples and the absent case. -/
theorem claim_C8_checkcolor_witness :
    luaXL_checkcolor (some [LuaVal.num 10, LuaVal.num 20, LuaVal.num 30]) 255
      = Except.ok ⟨10, 20, 30, 255⟩
    ∧ luaXL_checkcolor (some [LuaVal.num 10, LuaVal.num 20, LuaVal.num 30, LuaVal.num 40]) 255
      = Except.ok ⟨10, 20, 30, 40⟩
    ∧ luaXL_checkcolor none 255 = Except.ok ⟨255, 255, 255, 255⟩ :=
  ⟨claim_C8_checkcolor.1 10 20 30 (by decide) (by decide) (by decide) 255,
   claim_C8_checkcolor.2.1 10 20 30 40 (by decide) (by decide) (by decide) (by decide) 255,
   claim_C8_checkcolor.2.2 255 (by decide)⟩

/-- C4 witness: the concrete first allocation, first growth, failure,
dropped push and begin_frame reset. -/
theorem claim_C4_growth_and_resize_issue_witness :
    push_command ⟨0, 0, false⟩ 8 [true] = (some 0, ⟨CMD_BUF_INIT_SIZE, 16, false⟩, [])
    ∧ push_command ⟨524288, 524288, false⟩ 8 [true]
      = (some 524288, ⟨cmd_buf_grow 524288, 524304, false⟩, [])
    ∧ push_command ⟨524288, 524288, false⟩ 8 [false]
      = (none, ⟨524288, 524288, true⟩, [])
    ∧ push_command ⟨524288, 524288, true⟩ 8 [true] = (none, ⟨524288, 524288, true⟩, [true])
    ∧ (begin_frame_reset_resize_issue ⟨524288, 524288, true⟩).resize_issue = false :=
  ⟨claim_C4_growth_and_resize_issue.1 8 [] (by decide),
   claim_C4_growth_and_resize_issue.2.1 ⟨524288, 524288, false⟩ 8 [] rfl (by decide)
     (by decide) (by decide),
   claim_C4_growth_and_resize_issue.2.2.1 ⟨524288, 524288, false⟩ 8 [] rfl (by decide),
   claim_C4_growth_and_resize_issue.2.2.2.1 ⟨524288, 524288, true⟩ 8 [true] rfl,
   claim_C4_growth_and_resize_issue.2.2.2.2 ⟨524288, 524288, true⟩⟩

/-- C10. The rectangle-overlap predicate is non-strict: two rects whose
closed extents meet while the intersection rect is degenerate (they share
only an edge or a corner) are reported as overlapping; consequently
push_rect replaces a stored merge-buffer rect with the union of the two
when the new rect merely touches it, and a draw_rect whose box merely
touches the current clip rect is still pushed into the command buffer. -/
theorem claim_C10_nonstrict_overlap :
    (∀ a b : RenRect,
       max a.x b.x ≤ min (a.x + a.width) (b.x + b.width) →
       max a.y b.y ≤ min (a.y + a.height) (b.y + b.height) →
       (min (a.x + a.width) (b.x + b.width) = max a.x b.x
         ∨ min (a.y + a.height) (b.y + b.height) = max a.y b.y) →
       rects_overlap a b = true
         ∧ (intersect_rects a b).width * (intersect_rects a b).height = 0)
    ∧ (∀ (rest : List RenRect) (p r : RenRect),
        max p.x r.x ≤ min (p.x + p.width) (r.x + r.width) →
        max p.y r.y ≤ min (p.y + p.height) (r.y + r.height) →
        push_rect (p :: rest) r = merge_rects p r :: rest)
    ∧ (∀ (st : RenCacheRec) (rect : RenRect) (bytes : List Nat) (oracle : List Bool),
        rect.width ≠ 0 → rect.height ≠ 0 →
        max st.last_clip_rect.x rect.x
          ≤ min (st.last_clip_rect.x + st.last_clip_rect.width) (rect.x + rect.width) →
        max st.last_clip_rect.y rect.y
          ≤ min (st.last_clip_rect.y + st.last_clip_rect.height) (rect.y + rect.height) →
        st.buf.resize_issue = false →
        st.buf.command_buf_idx + padded_size sizeof_DrawRectCommand
          ≤ st.buf.command_buf_size →
        (rencache_draw_rect st rect bytes oracle).1.cmds
          = st.cmds ++ [⟨CommandType.DRAW_RECT, rect, bytes, 0⟩]) := by
  have touch : ∀ a b : RenRect,
      max a.x b.x ≤ min (a.x + a.width) (b.x + b.width) →
      max a.y b.y ≤ min (a.y + a.height) (b.y + b.height) →
      rects_overlap a b = true := by
    intro a b h1 h2
    rw [rects_overlap_iff]
    omega
  refine ⟨?_, ?_, ?_⟩
  · intro a b h1 h2 h3
    refine ⟨touch a b h1 h2, ?_⟩
    simp only [intersect_rects, rencache_min_eq, rencache_max_eq]
    rcases h3 with h | h
    · have hz : max 0 (min (a.x + a.width) (b.x + b.width) - max a.x b.x) = 0 := by omega
      rw [hz, zero_mul]
    · have hz : max 0 (min (a.y + a.height) (b.y + b.height) - max a.y b.y) = 0 := by omega
      rw [hz, mul_zero]
  · intro rest p r h1 h2
    have hov := touch p r h1 h2
    simp [push_rect, hov]
  · intro st rect bytes oracle hw hh h1 h2 hri hcap
    have hov := touch st.last_clip_rect rect h1 h2
    have hguard : ¬(rect.width = 0 ∨ rect.height = 0
        ∨ ¬rects_overlap st.last_clip_rect rect) := by
      simp [hov, hw, hh]
    have hpc : push_command st.buf sizeof_DrawRectCommand oracle
        = (some st.buf.command_buf_idx,
           { st.buf with command_buf_idx :=
              st.buf.command_buf_idx + padded_size sizeof_DrawRectCommand },
           oracle) := by
      simp only [push_command]
      rw [if_neg (by simp [hri]), push_grow_loop_fits _ _ _ hcap]
      simp
    simp only [rencache_draw_rect]
    rw [if_neg hguard, hpc]

/-- C10 witness: the unit square at the origin touches the unit square at
(1, 0) along an edge; with it as clip rect and as merge-buffer content, the
draw is recorded and the buffer rect is replaced by the union. -/
theorem claim_C10_nonstrict_overlap_witness :
    (rects_overlap ⟨0, 0, 1, 1⟩ ⟨1, 0, 1, 1⟩ = true
      ∧ (intersect_rects ⟨0, 0, 1, 1⟩ ⟨1, 0, 1, 1⟩).width
          * (intersect_rects ⟨0, 0, 1, 1⟩ ⟨1, 0, 1, 1⟩).height = 0)
    ∧ push_rect [⟨0, 0, 1, 1⟩] ⟨1, 0, 1, 1⟩ = [merge_rects ⟨0, 0, 1, 1⟩ ⟨1, 0, 1, 1⟩]
    ∧ (rencache_draw_rect
        ⟨⟨0, 0, 100, 100⟩, ⟨0, 0, 1, 1⟩, ⟨1024, 0, false⟩, [], fun _ => 0⟩
        ⟨1, 0, 1, 1⟩ [7] []).1.cmds
      = [⟨CommandType.DRAW_RECT, ⟨1, 0, 1, 1⟩, [7], 0⟩] :=
  ⟨claim_C10_nonstrict_overlap.1 ⟨0, 0, 1, 1⟩ ⟨1, 0, 1, 1⟩ (by decide) (by decide)
     (by decide),
   claim_C10_nonstrict_overlap.2.1 [] ⟨0, 0, 1, 1⟩ ⟨1, 0, 1, 1⟩ (by decide) (by decide),
   claim_C10_nonstrict_overlap.2.2
     ⟨⟨0, 0, 100, 100⟩, ⟨0, 0, 1, 1⟩, ⟨1024, 0, false⟩, [], fun _ => 0⟩
     ⟨1, 0, 1, 1⟩ [7] [] (by decide) (by decide) (by decide) (by decide) rfl (by decide)⟩

/-- C2. COW isolation: once a draw-canvas command has been recorded
(pinning the current ref of the canvas), any sequence of mutating canvas
operations performed before end_frame consumes the command leaves the
pinned ref untouched, so the bytes the command blits equal the surface
contents at the instant of recording. Well-formedness hypotheses: the
current ref identity is below the fresh-identity counter and no ref-count
is negative. -/
theorem claim_C2_cow_isolation (st : CanvasSys)
    (muts : List (List Nat → List Nat))
    (hfresh : st.handle_ref < st.next_ref)
    (hnonneg : ∀ x, 0 ≤ st.render_ref_count x) :
    (canvas_consume_draw (muts.foldl canvas_mutate (canvas_record_draw st).2)
        (canvas_record_draw st).1).1
      = st.ref_surface st.handle_ref := by
  have key : ∀ (l : List (List Nat → List Nat)) (s : CanvasSys),
      s.ref_surface st.handle_ref = st.ref_surface st.handle_ref →
      st.handle_ref < s.next_ref →
      0 < s.render_ref_count st.handle_ref →
      (l.foldl canvas_mutate s).ref_surface st.handle_ref
        = st.ref_surface st.handle_ref := by
    intro l
    induction l with
    | nil => intro s hs _ _; exact hs
    | cons m t ih =>
      intro s hs hlt hpos
      simp only [List.foldl_cons]
      by_cases hc : 0 < s.render_ref_count s.handle_ref
      · apply ih
        · simp only [canvas_mutate, if_pos hc]
          rw [Function.update_apply, if_neg (by omega)]
          exact hs
        · simp only [canvas_mutate, if_pos hc]
          omega
        · simp only [canvas_mutate, if_pos hc]
          exact hpos
      · have hne : s.handle_ref ≠ st.handle_ref := by
          intro he
          rw [he] at hc
          exact hc hpos
        apply ih
        · simp only [canvas_mutate, if_neg hc]
          rw [Function.update_apply, if_neg (by omega)]
          exact hs
        · simp only [canvas_mutate, if_neg hc]
          exact hlt
        · simp only [canvas_mutate, if_neg hc]
          exact hpos
  simp only [canvas_consume_draw, canvas_record_draw]
  apply key
  · rfl
  · exact hfresh
  · show 0 < Function.update st.render_ref_count st.handle_ref
      (st.render_ref_count st.handle_ref + 1) st.handle_ref
    rw [Function.update_apply, if_pos rfl]
    have := hnonneg st.handle_ref
    omega

/-- C2 witness: a canvas whose surface holds bytes [1, 2, 3] is recorded
and then mutated to [9]; the consumed command still blits [1, 2, 3]. -/
theorem claim_C2_cow_isolation_witness :
    (canvas_consume_draw
        ([fun _ => [9]].foldl canvas_mutate
          (canvas_record_draw ⟨0, fun _ => [1, 2, 3], fun _ => 0, 1⟩).2)
        (canvas_record_draw ⟨0, fun _ => [1, 2, 3], fun _ => 0, 1⟩).1).1
      = [1, 2, 3] :=
  claim_C2_cow_isolation ⟨0, fun _ => [1, 2, 3], fun _ => 0, 1⟩ [fun _ => [9]]
    (by decide) (fun x => le_refl 0)

/-! Helper lemmas about the hash pass and recording, for the ref-count
balance and frame-idempotence claims. -/

theorem hash_pass_step_refs (s : HashPassState) (cmd : Command) :
    (hash_pass_step s cmd).refs
      = if cmd.ctype = CommandType.DRAW_CANVAS
        then Function.update s.refs cmd.canvas_ref (s.refs cmd.canvas_ref - 1)
        else s.refs := by
  simp only [hash_pass_step]
  split <;> first | rfl | (split <;> rfl)

theorem hash_pass_step_cr (s : HashPassState) (cmd : Command) :
    (hash_pass_step s cmd).cr
      = if cmd.ctype = CommandType.SET_CLIP then cmd.rect else s.cr := by
  simp only [hash_pass_step]
  split <;> first | rfl | (split <;> rfl)

/-- The true/false test a DRAW_CANVAS record referencing ref c satisfies. -/
def canvas_pred (c : Nat) (cmd : Command) : Bool :=
  decide (cmd.ctype = CommandType.DRAW_CANVAS ∧ cmd.canvas_ref = c)

theorem hash_pass_refs_count (cmds : List Command) (s : HashPassState) (c : Nat) :
    (cmds.foldl hash_pass_step s).refs c
      = s.refs c - (cmds.countP (canvas_pred c) : Int) := by
  induction cmds generalizing s with
  | nil => simp
  | cons cmd t ih =>
    simp only [List.foldl_cons, List.countP_cons]
    rw [ih, hash_pass_step_refs]
    by_cases h1 : cmd.ctype = CommandType.DRAW_CANVAS
    · by_cases h2 : cmd.canvas_ref = c
      · rw [if_pos h1]
        rw [Function.update_apply, if_pos (show c = cmd.canvas_ref by omega), h2]
        have hp : canvas_pred c cmd = true := by
          simp [canvas_pred, h1, h2]
        rw [hp]
        simp only [if_pos rfl]
        push_cast
        omega
      · rw [if_pos h1]
        rw [Function.update_apply, if_neg (show ¬(c = cmd.canvas_ref) by omega)]
        have hp : canvas_pred c cmd = false := by
          simp [canvas_pred, h2]
        rw [hp]
        simp
    · rw [if_neg h1]
      have hp : canvas_pred c cmd = false := by
        simp [canvas_pred, h1]
      rw [hp]
      simp

theorem rec_call_balance (st : RenCacheRec) (oracle : List Bool)
    (call : RecCall) (c : Nat) :
    ((rec_call st oracle call).1.refs c : Int)
        - ((rec_call st oracle call).1.cmds.countP (canvas_pred c) : Int)
      = st.refs c - (st.cmds.countP (canvas_pred c) : Int) := by
  cases call with
  | setClip rect bytes =>
    simp only [rec_call, rencache_set_clip_rect]
    cases hpc : (push_command st.buf sizeof_SetClipCommand oracle).1 with
    | none => simp [hpc]
    | some v =>
      simp only [hpc]
      have hp : canvas_pred c ⟨CommandType.SET_CLIP,
          intersect_rects rect st.screen_rect, bytes, 0⟩ = false := by
        simp [canvas_pred]
      simp [List.countP_append, hp, List.countP_cons]
  | drawRect rect bytes =>
    simp only [rec_call, rencache_draw_rect]
    split
    · rfl
    · cases hpc : (push_command st.buf sizeof_DrawRectCommand oracle).1 with
      | none => simp [hpc]
      | some v =>
        simp only [hpc]
        have hp : canvas_pred c ⟨CommandType.DRAW_RECT, rect, bytes, 0⟩ = false := by
          simp [canvas_pred]
        simp [List.countP_append, hp, List.countP_cons]
  | drawCanvas rect ref bytes =>
    simp only [rec_call, rencache_draw_canvas]
    split
    · rfl
    · cases hpc : (push_command st.buf sizeof_DrawCanvasCommand oracle).1 with
      | none => simp [hpc]
      | some v =>
        simp only [hpc]
        by_cases h2 : ref = c
        · have hp : canvas_pred c ⟨CommandType.DRAW_CANVAS, rect, bytes, ref⟩ = true := by
            simp [canvas_pred, h2]
          subst h2
          simp only [List.countP_append, hp, List.countP_cons, List.countP_nil,
            Function.update_apply, if_pos rfl]
          push_cast
          omega
        · have hp : canvas_pred c ⟨CommandType.DRAW_CANVAS, rect, bytes, ref⟩ = false := by
            simp [canvas_pred, h2]
          simp only [List.countP_append, hp, List.countP_cons, List.countP_nil,
            Function.update_apply, if_neg (show ¬(c = ref) by omega)]
          push_cast
          omega

theorem record_calls_balance (calls : List RecCall) (st : RenCacheRec)
    (oracle : List Bool) (c : Nat) :
    ((record_calls st oracle calls).1.refs c : Int)
        - ((record_calls st oracle calls).1.cmds.countP (canvas_pred c) : Int)
      = st.refs c - (st.cmds.countP (canvas_pred c) : Int) := by
  induction calls generalizing st oracle with
  | nil => rfl
  | cons call t ih =>
    simp only [record_calls]
    rw [ih]
    exact rec_call_balance st oracle call c

/-- C3. Ref-count balance: starting a frame with an empty command buffer
and a canvas ref whose render_ref_count is 0, after recording any sequence
of set-clip, draw-rect and draw-canvas calls (under any allocation oracle)
and running end_frame over the recorded commands, the render_ref_count of
that ref is 0 again: every successfully recorded draw-canvas command
incremented it by exactly one and the hash pass decremented it by exactly
one per recorded command. -/
theorem claim_C3_refcount_balance (st : RenCacheRec) (calls : List RecCall)
    (oracle : List Bool) (screen : RenRect) (grids : RenCacheCells) (c : Nat)
    (hzero : st.refs c = 0) (hempty : st.cmds = []) :
    (rencache_end_frame screen grids (record_calls st oracle calls).1.refs
        (record_calls st oracle calls).1.cmds).refs c = 0 := by
  have hb := record_calls_balance calls st oracle c
  rw [hempty, hzero] at hb
  simp only [List.countP_nil, Nat.cast_zero, sub_zero] at hb
  show (hash_pass screen grids.cells (record_calls st oracle calls).1.refs
      (record_calls st oracle calls).1.cmds).refs c = 0
  rw [hash_pass, hash_pass_refs_count]
  show (record_calls st oracle calls).1.refs c
      - ((record_calls st oracle calls).1.cmds.countP (canvas_pred c) : Int) = 0
  omega

/-- C3 witness: one draw-canvas call on ref 5 from a fresh frame. -/
theorem claim_C3_refcount_balance_witness :
    (rencache_end_frame ⟨0, 0, 100, 100⟩ ⟨fun _ => 0, fun _ => 0⟩
        (record_calls
          ⟨⟨0, 0, 100, 100⟩, ⟨0, 0, 100, 100⟩, ⟨1024, 0, false⟩, [], fun _ => 0⟩
          [true] [RecCall.drawCanvas ⟨0, 0, 10, 10⟩ 5 [1, 2, 3]]).1.refs
        (record_calls
          ⟨⟨0, 0, 100, 100⟩, ⟨0, 0, 100, 100⟩, ⟨1024, 0, false⟩, [], fun _ => 0⟩
          [true] [RecCall.drawCanvas ⟨0, 0, 10, 10⟩ 5 [1, 2, 3]]).1.cmds).refs 5
      = 0 :=
  claim_C3_refcount_balance
    ⟨⟨0, 0, 100, 100⟩, ⟨0, 0, 100, 100⟩, ⟨1024, 0, false⟩, [], fun _ => 0⟩
    [RecCall.drawCanvas ⟨0, 0, 10, 10⟩ 5 [1, 2, 3]] [true]
    ⟨0, 0, 100, 100⟩ ⟨fun _ => 0, fun _ => 0⟩ 5 rfl rfl

/-! Lemmas for frame idempotence (C1): the value of a cell after the hash
pass depends only on its own previous value (and the command list), the
diff loop resets every scanned cell of the previous grid to HASH_INITIAL,
and a diff over grids that agree on all scanned cells emits no rect. -/

theorem mem_intRange {a b v : Int} : v ∈ intRange a b ↔ a ≤ v ∧ v ≤ b := by
  simp only [intRange, List.mem_map, List.mem_range]
  constructor
  · rintro ⟨i, hi, rfl⟩
    omega
  · intro h
    exact ⟨(v - a).toNat, by omega, by omega⟩

theorem intRange_nodup (a b : Int) : (intRange a b).Nodup := by
  unfold intRange
  apply List.Nodup.map_on
  · intro x _ y _ h
    omega
  · exact List.nodup_range _

theorem update_overlapping_cells_pointwise (r : RenRect) (h : Nat)
    (cs cs' : Int → Nat) (idx : Int) (heq : cs idx = cs' idx) :
    update_overlapping_cells cs r h idx = update_overlapping_cells cs' r h idx := by
  unfold update_overlapping_cells
  generalize touched_cells r = l
  induction l generalizing cs cs' with
  | nil => exact heq
  | cons p t ih =>
    simp only [List.foldl_cons]
    apply ih
    rw [Function.update_apply, Function.update_apply]
    by_cases hc : idx = cell_idx p.1 p.2
    · rw [if_pos hc, if_pos hc, ← hc, heq]
    · rw [if_neg hc, if_neg hc]
      exact heq

theorem hash_pass_step_pointwise (s s' : HashPassState) (cmd : Command)
    (idx : Int) (hcr : s.cr = s'.cr) (hcell : s.cells idx = s'.cells idx) :
    (hash_pass_step s cmd).cells idx = (hash_pass_step s' cmd).cells idx := by
  simp only [hash_pass_step, hcr]
  by_cases hc :
      (intersect_rects cmd.rect
        (if cmd.ctype = CommandType.SET_CLIP then cmd.rect else s'.cr)).width = 0
      ∨ (intersect_rects cmd.rect
        (if cmd.ctype = CommandType.SET_CLIP then cmd.rect else s'.cr)).height = 0
  · rw [if_pos hc, if_pos hc]
    exact hcell
  · rw [if_neg hc, if_neg hc]
    exact update_overlapping_cells_pointwise _ _ _ _ _ hcell

theorem hash_pass_fold_pointwise (cmds : List Command) (s s' : HashPassState)
    (idx : Int) (hcr : s.cr = s'.cr) (hcell : s.cells idx = s'.cells idx) :
    (cmds.foldl hash_pass_step s).cells idx
      = (cmds.foldl hash_pass_step s').cells idx := by
  induction cmds generalizing s s' with
  | nil => exact hcell
  | cons cmd t ih =>
    simp only [List.foldl_cons]
    exact ih _ _ (by rw [hash_pass_step_cr, hash_pass_step_cr, hcr])
      (hash_pass_step_pointwise s s' cmd idx hcr hcell)

theorem diff_fold_prev_not_visited (l : List (Int × Int)) (cells prev : Int → Nat)
    (buf : List RenRect) (idx : Int)
    (h : ∀ p ∈ l, cell_idx p.1 p.2 ≠ idx) :
    (l.foldl (diff_step cells) (buf, prev)).2 idx = prev idx := by
  induction l generalizing buf prev with
  | nil => rfl
  | cons p t ih =>
    simp only [List.foldl_cons, diff_step]
    rw [ih _ _ (fun q hq => h q (List.mem_cons_of_mem p hq))]
    rw [Function.update_apply, if_neg]
    intro he
    exact h p (List.mem_cons_self p t) (by rw [he])

theorem diff_fold_prev_visited (l : List (Int × Int)) (cells prev : Int → Nat)
    (buf : List RenRect) (idx : Int)
    (h : ∃ p ∈ l, cell_idx p.1 p.2 = idx) :
    (l.foldl (diff_step cells) (buf, prev)).2 idx = HASH_INITIAL := by
  induction l generalizing buf prev with
  | nil =>
    obtain ⟨p, hp, _⟩ := h
    exact absurd hp (List.not_mem_nil p)
  | cons p t ih =>
    by_cases ht : ∃ q ∈ t, cell_idx q.1 q.2 = idx
    · simp only [List.foldl_cons]
      exact ih _ _ ht
    · have hp : cell_idx p.1 p.2 = idx := by
        obtain ⟨q, hq, hqe⟩ := h
        rcases List.mem_cons.mp hq with hqp | hqt
        · rw [← hqp]; exact hqe
        · exact absurd ⟨q, hqt, hqe⟩ ht
      simp only [List.foldl_cons]
      rw [diff_fold_prev_not_visited t _ _ _ idx
        (fun q hq he => ht ⟨q, hq, he⟩)]
      simp only [diff_step]
      rw [Function.update_apply, if_pos hp.symm]

theorem diff_fold_no_dirty (l : List (Int × Int)) (cells prev : Int → Nat)
    (hnd : (l.map (fun p => cell_idx p.1 p.2)).Nodup)
    (heq : ∀ p ∈ l, cells (cell_idx p.1 p.2) = prev (cell_idx p.1 p.2)) :
    (l.foldl (diff_step cells) ([], prev)).1 = [] := by
  induction l generalizing prev with
  | nil => rfl
  | cons p t ih =>
    simp only [List.map_cons, List.nodup_cons] at hnd
    simp only [List.foldl_cons, diff_step]
    rw [if_neg (by simp [heq p (List.mem_cons_self p t)])]
    refine ih _ hnd.2 ?_
    intro q hq
    rw [Function.update_apply, if_neg]
    · exact heq q (List.mem_cons_of_mem p hq)
    · intro he
      exact hnd.1 (by rw [← he]; exact List.mem_map_of_mem _ hq)

theorem scanned_cells_idx_nodup (screen : RenRect)
    (h0 : 0 ≤ screen.width) (h1 : screen.width < 7680) :
    ((scanned_cells screen).map (fun p => cell_idx p.1 p.2)).Nodup := by
  have hmx : diff_max_x screen ≤ 128 := by
    unfold diff_max_x RENCACHE_CELL_SIZE
    rw [Int.tdiv_eq_ediv h0 (by norm_num)]
    omega
  unfold scanned_cells
  rw [List.map_flatMap, List.nodup_flatMap]
  constructor
  · intro y _
    simp only [List.map_map]
    apply List.Nodup.map_on
    · intro x1 _ x2 _ h
      simp only [Function.comp, cell_idx] at h
      omega
    · exact intRange_nodup _ _
  · refine List.Pairwise.imp_of_mem ?_ (intRange_nodup 0 (diff_max_y screen - 1))
    intro y1 y2 hy1 hy2 hne
    simp only [Function.onFun]
    intro a ha1 ha2
    simp only [List.map_map, List.mem_map] at ha1 ha2
    obtain ⟨x1, hx1, he1⟩ := ha1
    obtain ⟨x2, hx2, he2⟩ := ha2
    have hb1 := mem_intRange.mp hx1
    have hb2 := mem_intRange.mp hx2
    simp only [Function.comp, cell_idx, RENCACHE_CELLS_X] at he1 he2
    omega

theorem end_frame_rects_def (screen : RenRect) (grids : RenCacheCells)
    (refs : Nat → Int) (cmds : List Command) :
    (rencache_end_frame screen grids refs cmds).rects
      = ((diff_pass screen (hash_pass screen grids.cells refs cmds).cells
            grids.cells_prev).1.reverse).map (expand_rect screen) := rfl

theorem end_frame_cells_def (screen : RenRect) (grids : RenCacheCells)
    (refs : Nat → Int) (cmds : List Command) :
    (rencache_end_frame screen grids refs cmds).grids.cells
      = (diff_pass screen (hash_pass screen grids.cells refs cmds).cells
          grids.cells_prev).2 := rfl

theorem end_frame_prev_def (screen : RenRect) (grids : RenCacheCells)
    (refs : Nat → Int) (cmds : List Command) :
    (rencache_end_frame screen grids refs cmds).grids.cells_prev
      = (hash_pass screen grids.cells refs cmds).cells := rfl

/-- C1 as amended: for two consecutive frames at the same screen dimensions
with byte-identical recorded command sequences, the second end_frame
presents zero rects and every scanned current-grid cell hash equals the
corresponding previous-frame cell hash — provided the screen fits the
dirty grid (0 <= width < 7680, within the tracked 8K area, cf. C5) and the
first frame of the pair starts with every scanned current-grid cell equal
to the FNV-1a seed, the steady state that any earlier end_frame at these
dimensions establishes. Without the seeding precondition the claim fails
(see the counterexample). -/
theorem claim_C1_identical_frames (screen : RenRect) (grids : RenCacheCells)
    (refs : Nat → Int) (cmds : List Command)
    (h0 : 0 ≤ screen.width) (h1 : screen.width < 7680)
    (hseed : ∀ p ∈ scanned_cells screen,
      grids.cells (cell_idx p.1 p.2) = HASH_INITIAL) :
    (rencache_end_frame screen (rencache_end_frame screen grids refs cmds).grids
        (rencache_end_frame screen grids refs cmds).refs cmds).rects = []
    ∧ ∀ p ∈ scanned_cells screen,
        (rencache_end_frame screen (rencache_end_frame screen grids refs cmds).grids
            (rencache_end_frame screen grids refs cmds).refs cmds).grids.cells_prev
          (cell_idx p.1 p.2)
          = (rencache_end_frame screen grids refs cmds).grids.cells_prev
              (cell_idx p.1 p.2) := by
  have hreset : ∀ p ∈ scanned_cells screen,
      (rencache_end_frame screen grids refs cmds).grids.cells (cell_idx p.1 p.2)
        = HASH_INITIAL := by
    intro p hp
    rw [end_frame_cells_def]
    exact diff_fold_prev_visited _ _ _ _ _ ⟨p, hp, rfl⟩
  have hpt : ∀ p ∈ scanned_cells screen,
      (hash_pass screen (rencache_end_frame screen grids refs cmds).grids.cells
          (rencache_end_frame screen grids refs cmds).refs cmds).cells
        (cell_idx p.1 p.2)
        = (hash_pass screen grids.cells refs cmds).cells (cell_idx p.1 p.2) := by
    intro p hp
    refine hash_pass_fold_pointwise cmds _ _ (cell_idx p.1 p.2) rfl ?_
    show (rencache_end_frame screen grids refs cmds).grids.cells (cell_idx p.1 p.2)
      = grids.cells (cell_idx p.1 p.2)
    rw [hreset p hp, hseed p hp]
  constructor
  · rw [end_frame_rects_def, end_frame_prev_def]
    rw [show diff_pass screen
        (hash_pass screen (rencache_end_frame screen grids refs cmds).grids.cells
          (rencache_end_frame screen grids refs cmds).refs cmds).cells
        (hash_pass screen grids.cells refs cmds).cells
      = (scanned_cells screen).foldl
          (diff_step (hash_pass screen
            (rencache_end_frame screen grids refs cmds).grids.cells
            (rencache_end_frame screen grids refs cmds).refs cmds).cells)
          ([], (hash_pass screen grids.cells refs cmds).cells) from rfl]
    rw [diff_fold_no_dirty _ _ _ (scanned_cells_idx_nodup screen h0 h1) hpt]
    rfl
  · intro p hp
    rw [end_frame_prev_def, end_frame_prev_def]
    exact hpt p hp

/-- C1 counterexample. As stated, the claim fails for the very first pair
of frames after rencache_init and begin_frame: rencache_init zero-fills
both grids and begin_frame (seeing the screen size change) 0xFF-fills the
previous grid, so the current grid starts at 0 rather than at the FNV-1a
seed the diff loop resets it to. Two consecutive end_frames on a 200 x 100
screen with identical (here empty) command sequences then both present the
full screen: the second frame compares the seeded cells against the
zero-seeded hashes of the first and finds every scanned cell different. -/
theorem claim_C1_counterexample :
    (rencache_end_frame ⟨0, 0, 200, 100⟩
        (rencache_end_frame ⟨0, 0, 200, 100⟩ ⟨fun _ => 0, fun _ => 4294967295⟩
          (fun _ => 0) []).grids
        (rencache_end_frame ⟨0, 0, 200, 100⟩ ⟨fun _ => 0, fun _ => 4294967295⟩
          (fun _ => 0) []).refs
        []).rects ≠ [] := by decide

/-- C1 witness: a steady-state frame (all cells at the seed) holding one
draw-rect command, run twice on a 200 x 100 screen. -/
theorem claim_C1_identical_frames_witness :
    (rencache_end_frame ⟨0, 0, 200, 100⟩
        (rencache_end_frame ⟨0, 0, 200, 100⟩
          ⟨fun _ => HASH_INITIAL, fun _ => 0⟩ (fun _ => 0)
          [⟨CommandType.DRAW_RECT, ⟨20, 30, 10, 10⟩, [3, 1, 4], 0⟩]).grids
        (rencache_end_frame ⟨0, 0, 200, 100⟩
          ⟨fun _ => HASH_INITIAL, fun _ => 0⟩ (fun _ => 0)
          [⟨CommandType.DRAW_RECT, ⟨20, 30, 10, 10⟩, [3, 1, 4], 0⟩]).refs
        [⟨CommandType.DRAW_RECT, ⟨20, 30, 10, 10⟩, [3, 1, 4], 0⟩]).rects = [] :=
  (claim_C1_identical_frames ⟨0, 0, 200, 100⟩ ⟨fun _ => HASH_INITIAL, fun _ => 0⟩
    (fun _ => 0) [⟨CommandType.DRAW_RECT, ⟨20, 30, 10, 10⟩, [3, 1, 4], 0⟩]
    (by decide) (by decide) (fun p _ => rfl)).1

/-! Lemmas for the pixel round trip (C7). -/

theorem f_get_pixels_byte (c : Canvas) (x y w h i j t : Nat)
    (hi : i < w) (hj : j < h) (ht : t < 4) :
    byte_at (f_get_pixels c x y w h) ((j * w + i) * 4 + t)
      = pixel_channel (alpha_blend_rgba (c.pix (x + i) (y + j)) ⟨0, 0, 0, 0⟩) t := by
  have h1 : j * w + i < h * w := by
    calc j * w + i < j * w + w := by omega
    _ = (j + 1) * w := by ring
    _ ≤ h * w := Nat.mul_le_mul_right w (by omega)
  have h2 : w * h = h * w := Nat.mul_comm w h
  have hlt : (j * w + i) * 4 + t < w * h * 4 := by omega
  unfold byte_at f_get_pixels
  rw [List.getD_eq_getElem?_getD, List.getElem?_map, List.getElem?_range hlt]
  simp only [Option.map_some', Option.getD_some]
  have hdiv : ((j * w + i) * 4 + t) / 4 = j * w + i := by omega
  have hmod : ((j * w + i) * 4 + t) % 4 = t := by omega
  rw [hdiv, hmod]
  have hw : 0 < w := by omega
  have hm : (j * w + i) % w = i := by
    rw [Nat.add_comm, Nat.mul_comm, Nat.add_mul_mod_self_left]
    exact Nat.mod_eq_of_lt hi
  have hd : (j * w + i) / w = j := by
    rw [Nat.add_comm, Nat.mul_comm, Nat.add_mul_div_left i j hw]
    rw [Nat.div_eq_of_lt hi]
    omega
  rw [hm, hd]

theorem alpha_blend_alpha255 (s : Pixel) (h : s.a = 255) :
    alpha_blend_rgba s ⟨0, 0, 0, 0⟩ = s := by
  obtain ⟨r, g, b, a⟩ := s
  simp only at h
  subst h
  unfold alpha_blend_rgba
  simp only [Pixel.mk.injEq]
  refine ⟨?_, ?_, ?_, by decide⟩ <;>
  · simp only [Nat.cast_ofNat, Nat.cast_zero, sub_zero, add_zero]
    rw [Int.mul_tdiv_cancel _ (by norm_num)]
    exact Int.toNat_natCast _

/-- C7 as amended: for a sub-rect contained in the canvas ALL of whose
pixels are fully opaque (alpha = 255), set_pixels(get_pixels) leaves every
pixel of the sub-rect unchanged. For translucent pixels the round trip
rewrites them with their alpha-premultiplied values, because get_pixels
blits through the default SDL_BLENDMODE_BLEND of the RGBA32 canvas surface
(see the counterexample). -/
theorem claim_C7_roundtrip_alpha255 (c : Canvas) (x y w h : Nat)
    (hx : x + w ≤ c.w) (hy : y + h ≤ c.h)
    (hop : ∀ i j, i < w → j < h → (c.pix (x + i) (y + j)).a = 255) :
    ∀ px py, x ≤ px → px < x + w → y ≤ py → py < y + h →
      (rencache_draw_pixels c (f_get_pixels c x y w h) x y w h).pix px py
        = c.pix px py := by
  intro px py h1 h2 h3 h4
  show (if x ≤ px ∧ px < x + w ∧ y ≤ py ∧ py < y + h then
      (⟨byte_at (f_get_pixels c x y w h) (((py - y) * w + (px - x)) * 4),
        byte_at (f_get_pixels c x y w h) (((py - y) * w + (px - x)) * 4 + 1),
        byte_at (f_get_pixels c x y w h) (((py - y) * w + (px - x)) * 4 + 2),
        byte_at (f_get_pixels c x y w h) (((py - y) * w + (px - x)) * 4 + 3)⟩ : Pixel)
    else c.pix px py) = c.pix px py
  rw [if_pos ⟨h1, h2, h3, h4⟩]
  have hi : px - x < w := by omega
  have hj : py - y < h := by omega
  have e0 := f_get_pixels_byte c x y w h (px - x) (py - y) 0 hi hj (by omega)
  have e1 := f_get_pixels_byte c x y w h (px - x) (py - y) 1 hi hj (by omega)
  have e2 := f_get_pixels_byte c x y w h (px - x) (py - y) 2 hi hj (by omega)
  have e3 := f_get_pixels_byte c x y w h (px - x) (py - y) 3 hi hj (by omega)
  rw [Nat.add_zero] at e0
  rw [e0, e1, e2, e3]
  rw [alpha_blend_alpha255 _ (hop _ _ hi hj)]
  have hpx : x + (px - x) = px := by omega
  have hpy : y + (py - y) = py := by omega
  rw [hpx, hpy]
  rfl

/-- C7 witness: a 1 x 1 canvas holding opaque red survives the round
trip. -/
theorem claim_C7_roundtrip_alpha255_witness :
    (rencache_draw_pixels ⟨1, 1, fun _ _ => ⟨255, 0, 0, 255⟩⟩
        (f_get_pixels ⟨1, 1, fun _ _ => ⟨255, 0, 0, 255⟩⟩ 0 0 1 1) 0 0 1 1).pix 0 0
      = (⟨1, 1, fun _ _ => ⟨255, 0, 0, 255⟩⟩ : Canvas).pix 0 0 :=
  claim_C7_roundtrip_alpha255 ⟨1, 1, fun _ _ => ⟨255, 0, 0, 255⟩⟩ 0 0 1 1
    (by decide) (by decide) (fun i j _ _ => rfl) 0 0
    (by decide) (by decide) (by decide) (by decide)

end Pragtical
